import Mathlib

/-!
Verification of the SocialNest event-platform server (src/index.js).

The request handlers are shallowly embedded as pure Lean functions over an
explicit store state `DB`.  Timestamps are modelled as `Int` (milliseconds),
MongoDB ObjectIds as `Nat` drawn from a fresh-id counter in the state, and
JavaScript truthiness of optional body/payload fields via `Option` with
explicit truthiness predicates (absent and empty string are falsy; for
numbers, absent and zero are falsy).  Absent JSON fields in responses are
modelled as `Option.none`.
-/

/-- JS truthiness for an optional string field: `undefined`/`null` and the
empty string are falsy. -/
def strTruthy : Option String → Bool
  | none => false
  | some s => !s.isEmpty

/-- JS truthiness for an optional numeric field: `undefined`/`null` and `0`
are falsy. -/
def intTruthy : Option Int → Bool
  | none => false
  | some n => n != 0

/-- The decoded middle segment of the bearer token, as the `authenticate`
middleware sees it after `JSON.parse`: each field may be absent. -/
structure Payload where
  email : Option String
  name : Option String
  picture : Option String
deriving Repr, DecidableEq

/-- The identity record `req.user` attached by `authenticate`. -/
structure Identity where
  email : String
  displayName : String
  photoURL : Option String
deriving Repr, DecidableEq

/-- The payload-inspection stage of the `authenticate` middleware
(src/index.js lines 67–75): reject with 401 when `decodedPayload.email` is
falsy, otherwise build `req.user` with `name || "Anonymous"` and
`picture || null`. -/
def extractIdentity (p : Payload) : Except Nat Identity :=
  if strTruthy p.email then
    Except.ok
      { email := p.email.getD ""
        displayName := if strTruthy p.name then p.name.getD "" else "Anonymous"
        photoURL := if strTruthy p.picture then p.picture else none }
  else
    Except.error 401

/-- User preference flags. -/
structure Preferences where
  notifications : Bool
  emailUpdates : Bool
deriving Repr, DecidableEq

/-- A stored User document (collection `users`, keyed by email). -/
structure User where
  email : String
  displayName : String
  photoURL : Option String
  preferences : Preferences
  updatedAt : Int
deriving Repr, DecidableEq

/-- A stored Event document (collection `events`).  `id` models `_id`. -/
structure Event where
  id : Nat
  title : String
  description : String
  eventType : String
  thumbnailImage : Option String
  location : String
  eventDate : Int
  userEmail : String
  userName : String
  userPhotoURL : Option String
  createdAt : Int
  updatedAt : Int
deriving Repr, DecidableEq

/-- A stored JoinRecord document (collection `joinedEvents`). -/
structure JoinRecord where
  eventId : Nat
  userEmail : String
  userName : String
  userPhotoURL : Option String
  joinedAt : Int
deriving Repr, DecidableEq

/-- The document store: the three collections plus a counter supplying the
fresh `_id` MongoDB generates on `insertOne`. -/
structure DB where
  users : List User
  events : List Event
  joins : List JoinRecord
  nextId : Nat
deriving Repr, DecidableEq

/-- The empty store at process start. -/
def initDB : DB := { users := [], events := [], joins := [], nextId := 0 }

/-- `usersCollection.findOne({email})`. -/
def findUser (db : DB) (email : String) : Option User :=
  db.users.find? (fun u => u.email == email)

/-- `eventsCollection.findOne({_id})`. -/
def findEvent (db : DB) (eid : Nat) : Option Event :=
  db.events.find? (fun e => e.id == eid)

/-- Request body of `POST /users`. -/
structure UsersBody where
  displayName : Option String
  photoURL : Option String
  preferences : Option Preferences
deriving Repr, DecidableEq

/-- The `updateData` object built by `POST /users` (src/index.js lines
101–110): every field is recomputed from the request body and the caller
identity, never from the stored document. -/
def usersUpdateData (u : Identity) (b : UsersBody) (now : Int) : User :=
  { email := u.email
    displayName := if strTruthy b.displayName then b.displayName.getD "" else u.displayName
    photoURL := if strTruthy b.photoURL then b.photoURL else u.photoURL
    preferences := b.preferences.getD { notifications := true, emailUpdates := true }
    updatedAt := now }

/-- `usersCollection.updateOne({email}, {$set: doc}, {upsert: true})` where
`doc` carries every field of the document: replace the matching document if
present, else insert. -/
def upsertUser (db : DB) (doc : User) : DB :=
  if (db.users.any (fun u => u.email == doc.email)) then
    { db with users := db.users.map (fun u => if u.email == doc.email then doc else u) }
  else
    { db with users := db.users ++ [doc] }

/-- Handler for `POST /users` (src/index.js lines 97–126): upsert the full
`updateData` document keyed by the caller's email and return the stored
document. -/
def postUsers (db : DB) (u : Identity) (b : UsersBody) (now : Int) : DB :=
  upsertUser db (usersUpdateData u b now)

/-! ### Regex model for the `$regex` search filter

`GET /events` passes the raw `search` query string to MongoDB as
`{ $regex: search, $options: "i" }`.  We model the fragment of the regex
language these claims need: a pattern is a sequence of characters in which
`.` matches any single character and every non-metacharacter matches itself
case-insensitively; matching is an unanchored search.  Patterns containing
no metacharacter fall entirely inside this fragment. -/

/-- Characters with a special meaning in the regex dialect MongoDB uses. -/
def regexMetachars : List Char :=
  ['.', '*', '+', '?', '^', '$', '(', ')', '[', ']', '|', '\\',
   Char.ofNat 0x7b, Char.ofNat 0x7d]

/-- One pattern character against one subject character, with the `i`
option: `.` matches anything, anything else matches up to case. -/
def charMatch (pc c : Char) : Bool :=
  pc == '.' || pc.toLower == c.toLower

/-- Does the pattern match a prefix of the subject? -/
def matchHere : List Char → List Char → Bool
  | [], _ => true
  | _ :: _, [] => false
  | pc :: ps, c :: cs => charMatch pc c && matchHere ps cs

/-- Unanchored regex search: does the pattern match at some position? -/
def regexSearch (ps : List Char) : List Char → Bool
  | [] => matchHere ps []
  | c :: cs => matchHere ps (c :: cs) || regexSearch ps cs

/-- Case-insensitive equality of characters. -/
def lowerEq (a b : Char) : Bool := a.toLower == b.toLower

/-- Case-insensitive literal prefix test. -/
def isPrefixCI : List Char → List Char → Bool
  | [], _ => true
  | _ :: _, [] => false
  | a :: as, b :: bs => lowerEq a b && isPrefixCI as bs

/-- Case-insensitive literal substring containment. -/
def containsCI (needle : List Char) : List Char → Bool
  | [] => isPrefixCI needle []
  | c :: cs => isPrefixCI needle (c :: cs) || containsCI needle cs

/-! ### GET /events query and enrichment -/

/-- The query object built by `GET /events` (src/index.js lines 150–154):
always `eventDate: { $gte: new Date() }`, plus exact `eventType` when `type`
is supplied and `title: { $regex: search, $options: "i" }` when `search`
is supplied. -/
def eventsFilter (now : Int) (qtype search : Option String) (e : Event) : Bool :=
  now ≤ e.eventDate &&
  (match qtype with
   | none => true
   | some t => e.eventType == t) &&
  (match search with
   | none => true
   | some s => regexSearch s.toList e.title.toList)

/-- The ordering `sort({eventDate: 1})` uses. -/
def dateLe (a b : Event) : Prop := a.eventDate ≤ b.eventDate

instance : DecidableRel dateLe := fun a b => Int.decLe a.eventDate b.eventDate

instance : IsTotal Event dateLe := ⟨fun a b => Int.le_total a.eventDate b.eventDate⟩

instance : IsTrans Event dateLe := ⟨fun _ _ _ h h' => le_trans h h'⟩

/-- `cursor.limit(n)` with MongoDB's convention that `0` means unbounded
(`parseInt(limit) || 0`). -/
def applyLimit (n : Nat) (l : List α) : List α :=
  if n == 0 then l else l.take n

/-- A participant entry as projected out of a JoinRecord.  The list
endpoints project `{_id:0, userEmail:1, userName:1, userPhotoURL:1}`; the
detail endpoint additionally keeps `joinedAt`.  An omitted `joinedAt` is
`none`. -/
structure ParticipantView where
  userEmail : String
  userName : String
  userPhotoURL : Option String
  joinedAt : Option Int
deriving Repr, DecidableEq

/-- Projection used by `GET /events` and `GET /manage/events`. -/
def projectListParticipant (j : JoinRecord) : ParticipantView :=
  { userEmail := j.userEmail, userName := j.userName
    userPhotoURL := j.userPhotoURL, joinedAt := none }

/-- Projection used by `GET /events/:id` (includes `joinedAt`). -/
def projectDetailParticipant (j : JoinRecord) : ParticipantView :=
  { userEmail := j.userEmail, userName := j.userName
    userPhotoURL := j.userPhotoURL, joinedAt := some j.joinedAt }

/-- An event as serialized in a response: the stored document's fields plus
the attached `participants`, and `participantsCount` when the handler adds
it (`none` models the field being absent from the JSON). -/
structure EnrichedEvent where
  event : Event
  participants : List ParticipantView
  participantsCount : Option Nat
deriving Repr, DecidableEq

/-- `joinedEventsCollection.find({eventId})` with the list projection. -/
def participantsOf (db : DB) (eid : Nat) : List ParticipantView :=
  (db.joins.filter (fun j => j.eventId == eid)).map projectListParticipant

/-- The enrichment step of `GET /events` and `GET /manage/events`
(src/index.js lines 163–176 and 429–442): spread the event and attach
`participants` and `participantsCount = participants.length`. -/
def enrichEvent (db : DB) (e : Event) : EnrichedEvent :=
  { event := e
    participants := participantsOf db e.id
    participantsCount := some (participantsOf db e.id).length }

/-- Handler for `GET /events` (src/index.js lines 148–183): filter to
upcoming events with the optional type and search filters, sort ascending by
`eventDate`, apply the limit, and enrich each event. -/
def getEvents (db : DB) (now : Int) (qtype search : Option String) (lim : Nat) :
    List EnrichedEvent :=
  (applyLimit lim
    (List.insertionSort dateLe (db.events.filter (eventsFilter now qtype search)))).map
    (enrichEvent db)

/-- Handler for `GET /events/:id` (src/index.js lines 185–210): fetch the
event, 404 when absent, otherwise attach `participants` (projected with
`joinedAt`); no `participantsCount` field is added. -/
def getEventById (db : DB) (eid : Nat) : Except Nat EnrichedEvent :=
  match findEvent db eid with
  | none => Except.error 404
  | some e =>
      Except.ok
        { event := e
          participants :=
            (db.joins.filter (fun j => j.eventId == eid)).map projectDetailParticipant
          participantsCount := none }

/-- Handler for `GET /manage/events` (src/index.js lines 422–449): the
caller's own events, sorted ascending by `eventDate`, enriched like
`GET /events`. -/
def getManageEvents (db : DB) (u : Identity) : List EnrichedEvent :=
  (List.insertionSort dateLe
    (db.events.filter (fun e => e.userEmail == u.email))).map (enrichEvent db)

/-! ### Write endpoints -/

/-- Request body of `POST /events` and `PUT /events/:id`.  `eventDate` is a
timestamp; `new Date(eventDate)` is the identity in this model. -/
structure EventBody where
  title : Option String
  description : Option String
  eventType : Option String
  thumbnailImage : Option String
  location : Option String
  eventDate : Option Int
deriving Repr, DecidableEq

/-- Is some required creation field falsy?  Mirrors
`!title || !description || !eventType || !location || !eventDate`
(src/index.js line 223); `thumbnailImage` is not required. -/
def missingRequired (b : EventBody) : Bool :=
  !strTruthy b.title || !strTruthy b.description || !strTruthy b.eventType ||
  !strTruthy b.location || !intTruthy b.eventDate

/-- The JoinRecord `joinData` built for the caller (src/index.js lines
248–254 and 334–340). -/
def mkJoinData (eid : Nat) (u : Identity) (now : Int) : JoinRecord :=
  { eventId := eid, userEmail := u.email, userName := u.displayName
    userPhotoURL := u.photoURL, joinedAt := now }

/-- Handler for `POST /events` (src/index.js lines 212–262): 400 when a
required field is falsy; otherwise insert the event stamped with the caller's
owner fields and timestamps, then insert a JoinRecord for the creator, and
return 201. -/
def postEvent (db : DB) (u : Identity) (b : EventBody) (now : Int) : Nat × DB :=
  if missingRequired b then
    (400, db)
  else
    let eid := db.nextId
    let ev : Event :=
      { id := eid
        title := b.title.getD ""
        description := b.description.getD ""
        eventType := b.eventType.getD ""
        thumbnailImage := b.thumbnailImage
        location := b.location.getD ""
        eventDate := b.eventDate.getD 0
        userEmail := u.email
        userName := u.displayName
        userPhotoURL := u.photoURL
        createdAt := now
        updatedAt := now }
    (201,
      { db with
          events := db.events ++ [ev]
          joins := db.joins ++ [mkJoinData eid u now]
          nextId := db.nextId + 1 })

/-- The `updateData` object built by `PUT /events/:id` (src/index.js lines
289–297): each mutable field is the supplied value when truthy, otherwise the
stored one; `updatedAt` is stamped.  The `$set` touches no other field. -/
def eventUpdateData (e : Event) (b : EventBody) (now : Int) : Event :=
  { e with
      title := if strTruthy b.title then b.title.getD "" else e.title
      description := if strTruthy b.description then b.description.getD "" else e.description
      eventType := if strTruthy b.eventType then b.eventType.getD "" else e.eventType
      thumbnailImage := if strTruthy b.thumbnailImage then b.thumbnailImage else e.thumbnailImage
      location := if strTruthy b.location then b.location.getD "" else e.location
      eventDate := if intTruthy b.eventDate then b.eventDate.getD 0 else e.eventDate
      updatedAt := now }

/-- Handler for `PUT /events/:id` (src/index.js lines 264–310): 404 when the
event is absent, 403 when the caller is not the owner (no write), otherwise
`findOneAndUpdate` with `$set: updateData` and 200. -/
def putEvent (db : DB) (u : Identity) (eid : Nat) (b : EventBody) (now : Int) : Nat × DB :=
  match findEvent db eid with
  | none => (404, db)
  | some e =>
      if e.userEmail != u.email then
        (403, db)
      else
        (200,
          { db with
              events :=
                db.events.map (fun x => if x.id == eid then eventUpdateData e b now else x) })

/-- `joinedEventsCollection.findOne({eventId, userEmail})` returns a
document, i.e. the caller already joined. -/
def alreadyJoined (db : DB) (eid : Nat) (email : String) : Bool :=
  db.joins.any (fun j => j.eventId == eid && j.userEmail == email)

/-- Handler for `POST /events/:id/join` (src/index.js lines 313–348): 404
when the event is absent, 406 when a JoinRecord for (event, caller) already
exists (no write), otherwise insert `joinData` and return 201. -/
def joinEvent (db : DB) (u : Identity) (eid : Nat) (now : Int) : Nat × DB :=
  match findEvent db eid with
  | none => (404, db)
  | some _ =>
      if alreadyJoined db eid u.email then
        (406, db)
      else
        (201, { db with joins := db.joins ++ [mkJoinData eid u now] })

/-! ### Reachable states

Sequential execution of the mutating handlers, starting from the empty
store.  These are all the operations that write any of the three
collections; the read endpoints never write. -/

/-- States reachable by a sequence of (successful or failed) mutating
requests from the empty store. -/
inductive Reachable : DB → Prop where
  | init : Reachable initDB
  | users (db : DB) (u : Identity) (b : UsersBody) (now : Int) :
      Reachable db → Reachable (postUsers db u b now)
  | post (db : DB) (u : Identity) (b : EventBody) (now : Int) :
      Reachable db → Reachable (postEvent db u b now).2
  | put (db : DB) (u : Identity) (eid : Nat) (b : EventBody) (now : Int) :
      Reachable db → Reachable (putEvent db u eid b now).2
  | join (db : DB) (u : Identity) (eid : Nat) (now : Int) :
      Reachable db → Reachable (joinEvent db u eid now).2

/-- At most one JoinRecord per (eventId, userEmail) pair. -/
def JoinsUnique (db : DB) : Prop :=
  db.joins.Pairwise (fun a b => ¬(a.eventId = b.eventId ∧ a.userEmail = b.userEmail))

/-- Every stored id and referenced eventId is below the fresh-id counter. -/
def IdsFresh (db : DB) : Prop :=
  (∀ e ∈ db.events, e.id < db.nextId) ∧ (∀ j ∈ db.joins, j.eventId < db.nextId)

/-! ### Concrete states used to instantiate the theorems -/

/-- A sample authenticated caller. -/
def userA : Identity := { email := "a@x.com", displayName := "A", photoURL := none }

/-- A second, distinct caller. -/
def userB : Identity := { email := "b@x.com", displayName := "B", photoURL := none }

/-- A valid creation body for an event titled `"abc"`. -/
def bodyAbc : EventBody :=
  { title := some "abc", description := some "d", eventType := some "t"
    thumbnailImage := none, location := some "l", eventDate := some 10 }

/-- The store after `userA` creates the `"abc"` event at time 1. -/
def exDB : DB := (postEvent initDB userA bodyAbc 1).2

/-- The event document stored in `exDB` (id 0, owned by `userA`). -/
def exEvent : Event :=
  { id := 0, title := "abc", description := "d", eventType := "t"
    thumbnailImage := none, location := "l", eventDate := 10
    userEmail := "a@x.com", userName := "A", userPhotoURL := none
    createdAt := 1, updatedAt := 1 }

/-! ### Helper lemmas -/

theorem find?_overwrite (l : List User) (e : String) (doc : User) (hdoc : doc.email = e) :
    (l.map (fun u => if u.email == e then doc else u)).find? (fun u => u.email == e) =
      if l.any (fun u => u.email == e) then some doc else none := by
  induction l with
  | nil => rfl
  | cons x xs ih =>
      by_cases hx : (x.email == e) = true
      · rw [List.map_cons, if_pos hx, List.find?_cons_of_pos _ (by simp [hdoc]),
          List.any_cons, hx]
        simp
      · rw [List.map_cons, if_neg hx,
          @List.find?_cons_of_neg _ (fun u => u.email == e) x _ hx, ih,
          List.any_cons]
        simp [hx]

/-- Looking up the upsert key after `upsertUser` always yields the new
document. -/
theorem findUser_upsert (db : DB) (doc : User) :
    findUser (upsertUser db doc) doc.email = some doc := by
  unfold findUser upsertUser
  by_cases h : db.users.any (fun u => u.email == doc.email)
  · rw [if_pos h, find?_overwrite db.users doc.email doc rfl, if_pos h]
  · rw [if_neg h, List.find?_append, List.find?_eq_none.mpr, Option.none_or]
    · simp [List.find?]
    · intro x hx hpx
      simp only [List.any_eq_true] at h
      exact h ⟨x, hx, hpx⟩

/-- Replacing every event whose id matches by a document with that id makes
the id lookup return the replacement, provided some event matched. -/
theorem find?_map_update (l : List Event) (eid : Nat) (e e' : Event)
    (hfind : l.find? (fun x => x.id == eid) = some e) (hid : (e'.id == eid) = true) :
    (l.map (fun x => if x.id == eid then e' else x)).find? (fun x => x.id == eid) =
      some e' := by
  induction l with
  | nil => simp at hfind
  | cons x xs ih =>
      by_cases hx : (x.id == eid) = true
      · rw [List.map_cons, if_pos hx,
          @List.find?_cons_of_pos _ (fun x => x.id == eid) e' _ hid]
      · rw [@List.find?_cons_of_neg _ (fun x => x.id == eid) x _ hx] at hfind
        rw [List.map_cons, if_neg hx,
          @List.find?_cons_of_neg _ (fun x => x.id == eid) x _ hx, ih hfind]

/-- A pattern character that is not a metacharacter matches exactly the
characters equal to it up to case. -/
theorem charMatch_no_meta (pc c : Char) (h : pc ∉ regexMetachars) :
    charMatch pc c = lowerEq pc c := by
  have hdot : (pc == '.') = false := by
    cases hbe : pc == '.' with
    | false => rfl
    | true =>
        exact absurd (by rw [eq_of_beq hbe]; simp [regexMetachars]) h
  simp [charMatch, lowerEq, hdot]

/-- On metacharacter-free patterns, regex prefix matching is literal
case-insensitive prefix testing. -/
theorem matchHere_no_meta (ps l : List Char) (h : ∀ c ∈ ps, c ∉ regexMetachars) :
    matchHere ps l = isPrefixCI ps l := by
  induction ps generalizing l with
  | nil => cases l <;> rfl
  | cons pc ps ih =>
      cases l with
      | nil => rfl
      | cons c cs =>
          rw [matchHere, isPrefixCI,
            charMatch_no_meta pc c (h pc (List.mem_cons_self pc ps)),
            ih cs (fun x hx => h x (List.mem_cons_of_mem pc hx))]

/-- On metacharacter-free patterns, unanchored regex search is literal
case-insensitive substring containment. -/
theorem regexSearch_no_meta (ps l : List Char) (h : ∀ c ∈ ps, c ∉ regexMetachars) :
    regexSearch ps l = containsCI ps l := by
  induction l with
  | nil => exact matchHere_no_meta ps [] h
  | cons c cs ih =>
      rw [regexSearch, containsCI, matchHere_no_meta _ _ h, ih]

/-- Membership in the `GET /events` response: every element is the
enrichment of a stored event passing the query filter. -/
theorem mem_getEvents {db : DB} {now : Int} {qtype search : Option String} {lim : Nat}
    {r : EnrichedEvent} (hr : r ∈ getEvents db now qtype search lim) :
    ∃ e, e ∈ db.events ∧ eventsFilter now qtype search e = true ∧ r = enrichEvent db e := by
  unfold getEvents at hr
  obtain ⟨e, he, rfl⟩ := List.mem_map.mp hr
  refine ⟨e, ?_, ?_, rfl⟩
  · have : e ∈ db.events.filter (eventsFilter now qtype search) := by
      have hsub : e ∈ List.insertionSort dateLe
          (db.events.filter (eventsFilter now qtype search)) := by
        unfold applyLimit at he
        split at he
        · exact he
        · exact List.take_subset _ _ he
      exact (List.mem_insertionSort dateLe).mp hsub
    exact (List.mem_filter.mp this).1
  · have : e ∈ db.events.filter (eventsFilter now qtype search) := by
      have hsub : e ∈ List.insertionSort dateLe
          (db.events.filter (eventsFilter now qtype search)) := by
        unfold applyLimit at he
        split at he
        · exact he
        · exact List.take_subset _ _ he
      exact (List.mem_insertionSort dateLe).mp hsub
    exact (List.mem_filter.mp this).2

/-! ### Claim theorems -/

/-- Claim C8 (amended): for every decoded payload carrying a non-empty email
field, the Identity Extractor attaches an identity whose email equals the
payload's email exactly, with displayName defaulting to "Anonymous" and
photoURL to null when the corresponding fields are absent; a payload whose
email field is absent — or present but empty, hence falsy — is rejected
with 401. -/
theorem extractIdentity_email_exact (p : Payload) :
    (∀ s : String, p.email = some s → s ≠ "" →
      (extractIdentity p).toOption.map Identity.email = some s ∧
      (p.name = none →
        (extractIdentity p).toOption.map Identity.displayName = some "Anonymous") ∧
      (p.picture = none →
        (extractIdentity p).toOption.map Identity.photoURL = some none)) ∧
    (strTruthy p.email = false → extractIdentity p = Except.error 401) := by
  constructor
  · intro s hs hne
    have ht : strTruthy p.email = true := by
      rw [hs]
      show (!s.isEmpty) = true
      cases hemp : s.isEmpty with
      | false => rfl
      | true => exact absurd ((String.isEmpty_iff s).mp hemp) hne
    have hok : extractIdentity p =
        Except.ok
          { email := s
            displayName := if strTruthy p.name then p.name.getD "" else "Anonymous"
            photoURL := if strTruthy p.picture then p.picture else none } := by
      unfold extractIdentity
      rw [if_pos ht, hs]
      rfl
    refine ⟨by simp [hok, Except.toOption], fun hn => ?_, fun hp => ?_⟩
    · simp [hok, hn, strTruthy, Except.toOption]
    · simp [hok, hp, strTruthy, Except.toOption]
  · intro hf
    simp [extractIdentity, hf]

/-- Witness for C8: the payload `{email: "a@x.com"}` yields the identity
email "a@x.com" with the defaults, and the payload `{name: "Bob"}` (no
email) is rejected with 401. -/
theorem extractIdentity_email_exact_witness :
    ((extractIdentity (Payload.mk (some "a@x.com") none none)).toOption.map
        Identity.email = some "a@x.com" ∧
      ((Payload.mk (some "a@x.com") none none).name = none →
        (extractIdentity (Payload.mk (some "a@x.com") none none)).toOption.map
          Identity.displayName = some "Anonymous") ∧
      ((Payload.mk (some "a@x.com") none none).picture = none →
        (extractIdentity (Payload.mk (some "a@x.com") none none)).toOption.map
          Identity.photoURL = some none)) ∧
    extractIdentity (Payload.mk none (some "Bob") none) = Except.error 401 :=
  ⟨(extractIdentity_email_exact (Payload.mk (some "a@x.com") none none)).1
      "a@x.com" rfl (by decide),
   (extractIdentity_email_exact (Payload.mk none (some "Bob") none)).2 rfl⟩

/-- Counterexample for C8 as stated: the decoded payload
`{email: "", name: "Bob"}` contains an email field, yet the middleware
rejects the request with 401 instead of producing an identity whose email is
that (empty) payload email. -/
theorem extractIdentity_empty_email_counterexample :
    (Payload.mk (some "") (some "Bob") none).email = some "" ∧
    extractIdentity (Payload.mk (some "") (some "Bob") none) = Except.error 401 :=
  ⟨rfl, rfl⟩

/-- Claim C10: `POST /users` stores the fully recomputed `updateData`
document for the caller — independent of whatever was stored before — so a
body omitting `preferences` replaces the stored preferences by the constant
defaults `{notifications: true, emailUpdates: true}`. -/
theorem postUsers_full_overwrite (db : DB) (u : Identity) (b : UsersBody) (now : Int)
    (hpref : b.preferences = none) :
    findUser (postUsers db u b now) u.email = some (usersUpdateData u b now) ∧
    (usersUpdateData u b now).preferences =
      { notifications := true, emailUpdates := true } := by
  refine ⟨?_, by simp [usersUpdateData, hpref]⟩
  have h := findUser_upsert db (usersUpdateData u b now)
  exact h

/-- A user document with non-default preferences, stored before the request
of the C10 witness. -/
def oldUserA : User :=
  { email := "a@x.com", displayName := "Old", photoURL := some "old.png"
    preferences := { notifications := false, emailUpdates := false }
    updatedAt := 0 }

/-- A store already holding `oldUserA`. -/
def exUsersDB : DB := { users := [oldUserA], events := [], joins := [], nextId := 0 }

/-- A `POST /users` body that omits every field. -/
def emptyUsersBody : UsersBody := { displayName := none, photoURL := none, preferences := none }

/-- Witness for C10: posting a body without `preferences` over a stored user
with `{notifications: false, emailUpdates: false}` stores the defaults. -/
theorem postUsers_full_overwrite_witness :
    findUser (postUsers exUsersDB userA emptyUsersBody 9) userA.email =
      some (usersUpdateData userA emptyUsersBody 9) ∧
    (usersUpdateData userA emptyUsersBody 9).preferences =
      { notifications := true, emailUpdates := true } :=
  postUsers_full_overwrite exUsersDB userA emptyUsersBody 9 rfl

/-- Claim C9: a `POST /events` whose body has any of the required fields
(title, description, eventType, location, eventDate) absent or falsy
returns 400 and leaves the store untouched: no Event and no JoinRecord is
inserted. -/
theorem postEvent_missing_required (db : DB) (u : Identity) (b : EventBody) (now : Int)
    (h : strTruthy b.title = false ∨ strTruthy b.description = false ∨
         strTruthy b.eventType = false ∨ strTruthy b.location = false ∨
         intTruthy b.eventDate = false) :
    postEvent db u b now = (400, db) := by
  have hm : missingRequired b = true := by
    unfold missingRequired
    rcases h with h | h | h | h | h <;> simp [h]
  simp [postEvent, hm]

/-- Witness for C9: a body missing its title is rejected with 400 and the
store is unchanged. -/
theorem postEvent_missing_required_witness :
    postEvent exDB userA
      { title := none, description := some "d", eventType := some "t"
        thumbnailImage := none, location := some "l", eventDate := some 10 } 7 =
      (400, exDB) :=
  postEvent_missing_required exDB userA _ 7 (Or.inl rfl)

/-- Claim C3: `PUT /events/:id` by an authenticated caller who does not own
the stored event returns 403 and performs no write: the store — in
particular the stored event document — is identical before and after. -/
theorem putEvent_nonowner_403 (db : DB) (u : Identity) (eid : Nat) (b : EventBody)
    (now : Int) (e : Event) (hfind : findEvent db eid = some e)
    (hne : e.userEmail ≠ u.email) :
    putEvent db u eid b now = (403, db) ∧
    findEvent (putEvent db u eid b now).2 eid = some e := by
  have h1 : putEvent db u eid b now = (403, db) := by
    unfold putEvent
    rw [hfind]
    simp [hne]
  exact ⟨h1, by rw [h1]; exact hfind⟩

/-- Witness for C3: `userB` attempting to update `userA`'s event gets 403
and the store is unchanged. -/
theorem putEvent_nonowner_403_witness :
    putEvent exDB userB 0 bodyAbc 5 = (403, exDB) ∧
    findEvent (putEvent exDB userB 0 bodyAbc 5).2 0 = some exEvent :=
  putEvent_nonowner_403 exDB userB 0 bodyAbc 5 exEvent (by decide) (by decide)

/-- Claim C4: a successful `PUT /events/:id` by the event's owner stores
exactly `updateData` merged over the old document: the owner fields
(userEmail, userName, userPhotoURL) and `createdAt` — and the id — are
unchanged; only title, description, eventType, thumbnailImage, location,
eventDate and updatedAt are written. -/
theorem putEvent_owner_frame (db : DB) (u : Identity) (eid : Nat) (b : EventBody)
    (now : Int) (e : Event) (hfind : findEvent db eid = some e)
    (hown : e.userEmail = u.email) :
    (putEvent db u eid b now).1 = 200 ∧
    findEvent (putEvent db u eid b now).2 eid = some (eventUpdateData e b now) ∧
    (eventUpdateData e b now).id = e.id ∧
    (eventUpdateData e b now).userEmail = e.userEmail ∧
    (eventUpdateData e b now).userName = e.userName ∧
    (eventUpdateData e b now).userPhotoURL = e.userPhotoURL ∧
    (eventUpdateData e b now).createdAt = e.createdAt := by
  have hfind' : db.events.find? (fun x => x.id == eid) = some e := hfind
  have hpred0 := List.find?_some hfind'
  have hpred : (e.id == eid) = true := hpred0
  have hres : putEvent db u eid b now =
      (200,
        { db with
            events :=
              db.events.map (fun x => if x.id == eid then eventUpdateData e b now else x) }) := by
    unfold putEvent
    rw [hfind]
    simp [hown]
  refine ⟨by rw [hres], ?_, rfl, rfl, rfl, rfl, rfl⟩
  rw [hres]
  exact find?_map_update db.events eid e (eventUpdateData e b now) hfind hpred

/-- Witness for C4: `userA` updating its own event gets 200 and the stored
document keeps id, owner fields and `createdAt`. -/
theorem putEvent_owner_frame_witness :
    (putEvent exDB userA 0 bodyAbc 5).1 = 200 ∧
    findEvent (putEvent exDB userA 0 bodyAbc 5).2 0 =
      some (eventUpdateData exEvent bodyAbc 5) ∧
    (eventUpdateData exEvent bodyAbc 5).id = exEvent.id ∧
    (eventUpdateData exEvent bodyAbc 5).userEmail = exEvent.userEmail ∧
    (eventUpdateData exEvent bodyAbc 5).userName = exEvent.userName ∧
    (eventUpdateData exEvent bodyAbc 5).userPhotoURL = exEvent.userPhotoURL ∧
    (eventUpdateData exEvent bodyAbc 5).createdAt = exEvent.createdAt :=
  putEvent_owner_frame exDB userA 0 bodyAbc 5 exEvent (by decide) (by decide)

/-- Claim C2 (amended): for an existing event, a `POST /events/:id/join`
call made while no JoinRecord for the (event, user) pair exists — in
particular any user's first join request except the creator's, whom event
creation auto-joins — returns 201 and appends exactly one JoinRecord; the
same call repeated immediately afterwards returns 406 and leaves the store
unchanged, as does any call made when a record for the pair already
exists. -/
theorem joinEvent_first_then_conflict (db : DB) (u : Identity) (eid : Nat)
    (now otherNow : Int) (hev : findEvent db eid ≠ none) :
    (alreadyJoined db eid u.email = false →
      joinEvent db u eid now =
        (201, { db with joins := db.joins ++ [mkJoinData eid u now] }) ∧
      joinEvent { db with joins := db.joins ++ [mkJoinData eid u now] } u eid otherNow =
        (406, { db with joins := db.joins ++ [mkJoinData eid u now] })) ∧
    (alreadyJoined db eid u.email = true → joinEvent db u eid now = (406, db)) := by
  obtain ⟨e, he⟩ := Option.ne_none_iff_exists'.mp hev
  constructor
  · intro hnj
    constructor
    · unfold joinEvent
      rw [he, hnj]
      rfl
    · have he2 : findEvent { db with joins := db.joins ++ [mkJoinData eid u now] } eid =
          some e := he
      have haj : alreadyJoined { db with joins := db.joins ++ [mkJoinData eid u now] }
          eid u.email = true := by
        unfold alreadyJoined
        simp [mkJoinData]
      unfold joinEvent
      rw [he2, haj]
      rfl
  · intro hj
    unfold joinEvent
    rw [he, hj]
    rfl

/-- The store after `userB`'s first join of event 0 in `exDB`. -/
def exDBJoined : DB := { exDB with joins := exDB.joins ++ [mkJoinData 0 userB 2] }

/-- Witness for C2: `userB` joins event 0 of `exDB` (201, one record
appended); repeating the call returns 406 with the store unchanged. -/
theorem joinEvent_first_then_conflict_witness :
    joinEvent exDB userB 0 2 = (201, exDBJoined) ∧
    joinEvent exDBJoined userB 0 3 = (406, exDBJoined) :=
  (joinEvent_first_then_conflict exDB userB 0 2 3 (by decide)).1 (by decide)

/-! ### Invariant preservation for the join-uniqueness claim -/

theorem inv_postUsers (db : DB) (u : Identity) (b : UsersBody) (now : Int)
    (h : IdsFresh db ∧ JoinsUnique db) :
    IdsFresh (postUsers db u b now) ∧ JoinsUnique (postUsers db u b now) := by
  unfold postUsers upsertUser
  split
  · exact h
  · exact h

theorem inv_postEvent (db : DB) (u : Identity) (b : EventBody) (now : Int)
    (h : IdsFresh db ∧ JoinsUnique db) :
    IdsFresh (postEvent db u b now).2 ∧ JoinsUnique (postEvent db u b now).2 := by
  obtain ⟨⟨hev, hjn⟩, hun⟩ := h
  unfold postEvent
  split
  · exact ⟨⟨hev, hjn⟩, hun⟩
  · refine ⟨⟨?_, ?_⟩, ?_⟩
    · intro e he
      rcases List.mem_append.mp he with he | he
      · exact Nat.lt_succ_of_lt (hev e he)
      · rcases List.mem_singleton.mp he with rfl
        exact Nat.lt_succ_self _
    · intro j hj
      rcases List.mem_append.mp hj with hj | hj
      · exact Nat.lt_succ_of_lt (hjn j hj)
      · rcases List.mem_singleton.mp hj with rfl
        exact Nat.lt_succ_self _
    · unfold JoinsUnique at hun ⊢
      rw [List.pairwise_append]
      refine ⟨hun, List.pairwise_singleton _ _, ?_⟩
      intro a ha b hb hab
      rcases List.mem_singleton.mp hb with rfl
      exact absurd hab.1 (Nat.ne_of_lt (hjn a ha))

theorem inv_putEvent (db : DB) (u : Identity) (eid : Nat) (b : EventBody) (now : Int)
    (h : IdsFresh db ∧ JoinsUnique db) :
    IdsFresh (putEvent db u eid b now).2 ∧ JoinsUnique (putEvent db u eid b now).2 := by
  obtain ⟨⟨hev, hjn⟩, hun⟩ := h
  cases hfind : findEvent db eid with
  | none =>
      have hres : (putEvent db u eid b now).2 = db := by
        unfold putEvent
        rw [hfind]
      rw [hres]
      exact ⟨⟨hev, hjn⟩, hun⟩
  | some e =>
      by_cases hown : (e.userEmail != u.email) = true
      · have hres : (putEvent db u eid b now).2 = db := by
          unfold putEvent
          rw [hfind]
          simp [hown]
        rw [hres]
        exact ⟨⟨hev, hjn⟩, hun⟩
      · have hres : (putEvent db u eid b now).2 =
            { db with
                events :=
                  db.events.map (fun x => if x.id == eid then eventUpdateData e b now else x) } := by
          unfold putEvent
          rw [hfind]
          simp [hown]
        rw [hres]
        refine ⟨⟨?_, hjn⟩, hun⟩
        intro x hx
        rcases List.mem_map.mp hx with ⟨y, hy, rfl⟩
        by_cases hid : (y.id == eid) = true
        · rw [if_pos hid]
          have hfind' : db.events.find? (fun x => x.id == eid) = some e := hfind
          exact hev e (List.mem_of_find?_eq_some hfind')
        · rw [if_neg hid]
          exact hev y hy

theorem inv_joinEvent (db : DB) (u : Identity) (eid : Nat) (now : Int)
    (h : IdsFresh db ∧ JoinsUnique db) :
    IdsFresh (joinEvent db u eid now).2 ∧ JoinsUnique (joinEvent db u eid now).2 := by
  obtain ⟨⟨hev, hjn⟩, hun⟩ := h
  cases hfind : findEvent db eid with
  | none =>
      have hres : (joinEvent db u eid now).2 = db := by
        unfold joinEvent
        rw [hfind]
      rw [hres]
      exact ⟨⟨hev, hjn⟩, hun⟩
  | some e =>
      by_cases hj : alreadyJoined db eid u.email = true
      · have hres : (joinEvent db u eid now).2 = db := by
          unfold joinEvent
          rw [hfind]
          simp [hj]
        rw [hres]
        exact ⟨⟨hev, hjn⟩, hun⟩
      · have hnj : alreadyJoined db eid u.email = false := by
          rw [Bool.not_eq_true] at hj
          exact hj
        have hres : (joinEvent db u eid now).2 =
            { db with joins := db.joins ++ [mkJoinData eid u now] } := by
          unfold joinEvent
          rw [hfind]
          simp [hnj]
        rw [hres]
        have hfind' : db.events.find? (fun x => x.id == eid) = some e := hfind
        have heid : eid = e.id := by
          have hp := List.find?_some hfind'
          have hp' : (e.id == eid) = true := hp
          exact (beq_iff_eq.mp hp').symm
        have hmem : e ∈ db.events := List.mem_of_find?_eq_some hfind'
        refine ⟨⟨hev, ?_⟩, ?_⟩
        · intro j hjm
          rcases List.mem_append.mp hjm with hjm | hjm
          · exact hjn j hjm
          · rcases List.mem_singleton.mp hjm with rfl
            show eid < db.nextId
            rw [heid]
            exact hev e hmem
        · unfold JoinsUnique at hun ⊢
          show List.Pairwise _ (db.joins ++ [mkJoinData eid u now])
          rw [List.pairwise_append]
          refine ⟨hun, List.pairwise_singleton _ _, ?_⟩
          intro a ha c hc hac
          rcases List.mem_singleton.mp hc with rfl
          have hfail : ∀ j ∈ db.joins, ¬(j.eventId == eid && j.userEmail == u.email) = true := by
            intro j hjm
            have h0 := hnj
            unfold alreadyJoined at h0
            rw [List.any_eq_false] at h0
            exact h0 j hjm
          have hm : a.eventId = eid ∧ a.userEmail = u.email := by
            simpa [mkJoinData] using hac
          exact hfail a ha (by simp [hm.1, hm.2])

/-- Every reachable store has fresh ids and unique join pairs. -/
theorem inv_reachable (db : DB) (h : Reachable db) :
    IdsFresh db ∧ JoinsUnique db := by
  induction h with
  | init =>
      refine ⟨⟨?_, ?_⟩, ?_⟩
      · intro e he
        simp [initDB] at he
      · intro j hj
        simp [initDB] at hj
      · unfold JoinsUnique
        show List.Pairwise _ []
        exact List.Pairwise.nil
  | users db u b now _ ih => exact inv_postUsers db u b now ih
  | post db u b now _ ih => exact inv_postEvent db u b now ih
  | put db u eid b now _ ih => exact inv_putEvent db u eid b now ih
  | join db u eid now _ ih => exact inv_joinEvent db u eid now ih

/-- Claim C5: across all operations that write JoinRecords — the creator
auto-join of `POST /events` and `POST /events/:id/join` — every store
reachable by sequential request execution holds at most one JoinRecord per
(eventId, userEmail) pair. -/
theorem joinRecords_unique_per_pair (db : DB) (h : Reachable db) : JoinsUnique db :=
  (inv_reachable db h).2

/-- Witness for C5: after creating an event (auto-join for `userA`) and a
join by `userB`, the pairs are unique. -/
theorem joinRecords_unique_per_pair_witness :
    JoinsUnique (joinEvent exDB userB 0 2).2 :=
  joinRecords_unique_per_pair (joinEvent exDB userB 0 2).2
    (Reachable.join exDB userB 0 2
      (Reachable.post initDB userA bodyAbc 1 Reachable.init))

/-- `cursor.limit` yields a sublist of the sorted result. -/
theorem applyLimit_sublist {α : Type} (n : Nat) (l : List α) :
    (applyLimit n l).Sublist l := by
  unfold applyLimit
  split
  · exact List.Sublist.refl l
  · exact List.take_sublist n l

/-- Claim C6: `GET /events` never includes an event whose eventDate is
strictly before the request time, and the events it returns are sorted
ascending by eventDate. -/
theorem getEvents_upcoming_sorted (db : DB) (now : Int) (qtype search : Option String)
    (lim : Nat) :
    (∀ r ∈ getEvents db now qtype search lim, ¬(r.event.eventDate < now)) ∧
    (getEvents db now qtype search lim).Pairwise
      (fun a b => a.event.eventDate ≤ b.event.eventDate) := by
  constructor
  · intro r hr
    obtain ⟨e, _, hf, rfl⟩ := mem_getEvents hr
    have h1 : now ≤ e.eventDate := by
      unfold eventsFilter at hf
      simp only [Bool.and_eq_true, decide_eq_true_eq] at hf
      exact hf.1.1
    show ¬((enrichEvent db e).event.eventDate < now)
    exact not_lt.mpr h1
  · unfold getEvents
    rw [List.pairwise_map]
    have hs : (List.insertionSort dateLe
          (db.events.filter (eventsFilter now qtype search))).Pairwise dateLe :=
      List.sorted_insertionSort dateLe _
    exact hs.sublist (applyLimit_sublist lim _)

/-- Witness for C6: the event of `exDB` appears in the listing at time 0 and
is not in the past; the whole response is sorted. -/
theorem getEvents_upcoming_sorted_witness :
    ¬((enrichEvent exDB exEvent).event.eventDate < 0) ∧
    (getEvents exDB 0 none none 0).Pairwise
      (fun a b => a.event.eventDate ≤ b.event.eventDate) :=
  ⟨(getEvents_upcoming_sorted exDB 0 none none 0).1 (enrichEvent exDB exEvent) (by decide),
   (getEvents_upcoming_sorted exDB 0 none none 0).2⟩

/-- Claim C1 (amended): every event returned by `GET /events` and
`GET /manage/events` carries `participantsCount` equal to the length of its
`participants`, and `participants` is exactly the list projection of the
JoinRecords whose eventId equals that event's id; `GET /events/:id` attaches
`participants` as exactly the detail projection (including `joinedAt`) of
those JoinRecords but adds no `participantsCount` field. -/
theorem participants_exact (db : DB) (now : Int) (qtype search : Option String)
    (lim : Nat) (u : Identity) (eid : Nat) :
    (∀ r ∈ getEvents db now qtype search lim,
      r.participantsCount = some r.participants.length ∧
      r.participants =
        (db.joins.filter (fun j => j.eventId == r.event.id)).map projectListParticipant) ∧
    (∀ r ∈ getManageEvents db u,
      r.participantsCount = some r.participants.length ∧
      r.participants =
        (db.joins.filter (fun j => j.eventId == r.event.id)).map projectListParticipant) ∧
    (∀ r : EnrichedEvent, getEventById db eid = Except.ok r →
      r.participantsCount = none ∧
      r.participants =
        (db.joins.filter (fun j => j.eventId == r.event.id)).map projectDetailParticipant) := by
  refine ⟨?_, ?_, ?_⟩
  · intro r hr
    obtain ⟨e, _, _, rfl⟩ := mem_getEvents hr
    exact ⟨rfl, rfl⟩
  · intro r hr
    unfold getManageEvents at hr
    obtain ⟨e, _, rfl⟩ := List.mem_map.mp hr
    exact ⟨rfl, rfl⟩
  · intro r hr
    unfold getEventById at hr
    cases hfind : findEvent db eid with
    | none =>
        rw [hfind] at hr
        exact absurd hr (by simp)
    | some e =>
        rw [hfind] at hr
        have hfind' : db.events.find? (fun x => x.id == eid) = some e := hfind
        have hp := List.find?_some hfind'
        have hp' : (e.id == eid) = true := hp
        have heid : e.id = eid := beq_iff_eq.mp hp'
        have hr' := (Except.ok.injEq _ _).mp hr
        subst hr'
        refine ⟨rfl, ?_⟩
        show (db.joins.filter (fun j => j.eventId == eid)).map projectDetailParticipant =
          (db.joins.filter (fun j => j.eventId == e.id)).map projectDetailParticipant
        rw [heid]

/-- The response `GET /events/:id` produces for event 0 of `exDB`. -/
def exDetail : EnrichedEvent :=
  { event := exEvent
    participants :=
      [{ userEmail := "a@x.com", userName := "A", userPhotoURL := none, joinedAt := some 1 }]
    participantsCount := none }

/-- Witness for C1: in `exDB`, the listing and manage responses carry a
count equal to their participants length and the exact projections, and the
detail response carries the exact `joinedAt`-bearing projections. -/
theorem participants_exact_witness :
    ((enrichEvent exDB exEvent).participantsCount =
        some (enrichEvent exDB exEvent).participants.length ∧
      (enrichEvent exDB exEvent).participants =
        (exDB.joins.filter (fun j => j.eventId == (enrichEvent exDB exEvent).event.id)).map
          projectListParticipant) ∧
    ((enrichEvent exDB exEvent).participantsCount =
        some (enrichEvent exDB exEvent).participants.length ∧
      (enrichEvent exDB exEvent).participants =
        (exDB.joins.filter (fun j => j.eventId == (enrichEvent exDB exEvent).event.id)).map
          projectListParticipant) ∧
    (exDetail.participantsCount = none ∧
      exDetail.participants =
        (exDB.joins.filter (fun j => j.eventId == exDetail.event.id)).map
          projectDetailParticipant) :=
  ⟨(participants_exact exDB 0 none none 0 userA 0).1 (enrichEvent exDB exEvent) (by decide),
   (participants_exact exDB 0 none none 0 userA 0).2.1 (enrichEvent exDB exEvent) (by decide),
   (participants_exact exDB 0 none none 0 userA 0).2.2 exDetail rfl⟩

/-- Counterexample for C1 as stated: in `exDB` the `GET /events/:id`
response for event 0 has one participant but its `participantsCount` field
is absent, not equal to the participants length. -/
theorem getEventById_no_count_counterexample :
    getEventById exDB 0 = Except.ok exDetail ∧
    exDetail.participantsCount ≠ some exDetail.participants.length :=
  ⟨rfl, by decide⟩

/-- Claim C7 (amended): for search strings containing no regex
metacharacter, `GET /events?search=s` (unlimited) returns, up to order,
exactly the upcoming, type-matching events whose title contains `s` as a
case-insensitive literal substring.  (For other strings the raw `s` is
handed to the store as a regex pattern, so metacharacters keep their regex
meaning.) -/
theorem getEvents_search_literal (db : DB) (now : Int) (qtype : Option String)
    (s : String) (hs : ∀ c ∈ s.toList, c ∉ regexMetachars) :
    ((getEvents db now qtype (some s) 0).map (fun r => r.event)).Perm
      (db.events.filter (fun e =>
        eventsFilter now qtype none e && containsCI s.toList e.title.toList)) := by
  have h0 : getEvents db now qtype (some s) 0 =
      (List.insertionSort dateLe (db.events.filter (eventsFilter now qtype (some s)))).map
        (enrichEvent db) := rfl
  rw [h0, List.map_map]
  have hid : ((fun r : EnrichedEvent => r.event) ∘ enrichEvent db) = fun e => e := rfl
  rw [hid, List.map_id']
  refine (List.perm_insertionSort dateLe _).trans ?_
  have hfeq : db.events.filter (eventsFilter now qtype (some s)) =
      db.events.filter (fun e =>
        eventsFilter now qtype none e && containsCI s.toList e.title.toList) := by
    apply List.filter_congr
    intro e _
    show eventsFilter now qtype (some s) e =
      (eventsFilter now qtype none e && containsCI s.toList e.title.toList)
    unfold eventsFilter
    rw [show (match some s with
        | none => true
        | some t => regexSearch t.toList e.title.toList) =
          regexSearch s.toList e.title.toList from rfl,
      regexSearch_no_meta s.toList e.title.toList hs]
    cases decide (now ≤ e.eventDate) <;>
      cases (match qtype with | none => true | some t => e.eventType == t) <;>
        cases containsCI s.toList e.title.toList <;> rfl
  rw [hfeq]

/-- Witness for C7: searching `exDB` for the metacharacter-free string "ab"
returns exactly the events whose title contains "ab" case-insensitively. -/
theorem getEvents_search_literal_witness :
    ((getEvents exDB 0 none (some "ab") 0).map (fun r => r.event)).Perm
      (exDB.events.filter (fun e =>
        eventsFilter 0 none none e && containsCI "ab".toList e.title.toList)) :=
  getEvents_search_literal exDB 0 none "ab" (by decide)

/-- Counterexample for C7 as stated: searching for "a.c" returns the event
titled "abc" although "a.c" is not a case-insensitive literal substring of
"abc" — the dot acts as a regex wildcard because the search string is not
escaped. -/
theorem getEvents_search_metachar_counterexample :
    (getEvents exDB 0 none (some "a.c") 0).map (fun r => r.event.title) = ["abc"] ∧
    containsCI "a.c".toList "abc".toList = false :=
  ⟨by decide, by decide⟩

/-- Counterexample for C2 as stated: `exDB` arises from `userA` creating
event 0 with no join request ever made, yet `userA`'s first
`POST /events/:id/join` call returns 406 and inserts nothing — the creation
auto-join already stored the (event, creator) pair — instead of the claimed
201 with one inserted record. -/
theorem joinEvent_creator_first_call_counterexample :
    joinEvent exDB userA 0 5 = (406, exDB) := by decide
